import Mathlib

/-!
Verification of the threat-intelligence frontend utilities
(`frontend/src/api/client.js`) and of the spec-described enrichment core.

The utility functions of `client.js` are shallowly embedded here: JS numbers
become `ℚ` (the risk scores in play are plain decimals), JS strings become
`String` / `List Char`, and each anchored regular expression of `validateIOC`
becomes a decidable predicate that mirrors the regex structure.  Parts of the
system that exist only in the specification (the Enrichment Coordinator and
the Risk Scorer) are modelled from the words of the spec, marked as such.
-/

namespace Threatelligence

/-! ### Character classes of the regexes in `validateIOC` -/

/-- The class `[0-9]`. -/
def isDigitC (c : Char) : Bool := 48 ≤ c.toNat && c.toNat ≤ 57

/-- The class `[a-zA-Z]`. -/
def isAlphaC (c : Char) : Bool :=
  (65 ≤ c.toNat && c.toNat ≤ 90) || (97 ≤ c.toNat && c.toNat ≤ 122)

/-- The class `[a-zA-Z0-9]`. -/
def isAlnumC (c : Char) : Bool := isAlphaC c || isDigitC c

/-- The class `[a-zA-Z0-9-]`. -/
def isAlnumHyphenC (c : Char) : Bool := isAlnumC c || c = '-'

/-- The class `[a-fA-F0-9]` (hex digit). -/
def isHexC (c : Char) : Bool :=
  isDigitC c || (97 ≤ c.toNat && c.toNat ≤ 102) || (65 ≤ c.toNat && c.toNat ≤ 70)

/-- The JavaScript backslash-s class: tab through carriage return, space,
NBSP, Ogham space mark, the en-quad through hair-space range, line and
paragraph separators, narrow NBSP, medium mathematical space, ideographic
space, and the BOM. -/
def jsWhitespace (c : Char) : Bool :=
  let n := c.toNat
  (9 ≤ n && n ≤ 13) || n = 32 || n = 160 || n = 5760 ||
    (8192 ≤ n && n ≤ 8202) || n = 8232 || n = 8233 || n = 8239 ||
    n = 8287 || n = 12288 || n = 65279

/-- A character accepted by the negated class `[^\s<>"{}|\\^`[\]]` of the
url pattern. -/
def urlChar (c : Char) : Bool :=
  !(jsWhitespace c || c = '<' || c = '>' || c = '"' || c = '{' || c = '}' ||
    c = '|' || c = '\\' || c = '^' || c = Char.ofNat 96 || c = '[' || c = ']')

/-! ### Dot-separated decomposition

The ip and domain regexes are anchored alternations of dot-free segments
joined by literal `\.`; a string matches exactly when its dot-separated parts
match the per-segment subpatterns.  `splitOnDot` computes those parts, with
the JavaScript semantics of splitting on a dot (empty parts are kept). -/

def splitOnDot : List Char → List (List Char)
  | [] => [[]]
  | c :: cs =>
    if c = '.' then [] :: splitOnDot cs
    else
      match splitOnDot cs with
      | [] => [[c]]
      | p :: ps => (c :: p) :: ps

/-! ### The `validateIOC` patterns (`client.js` lines 199–204) -/

/-- One group of the ip regex `(?:[0-9]{1,3}\.)` / its tail `[0-9]{1,3}`:
a run of one to three decimal digits. -/
def octetDigits (p : List Char) : Bool :=
  decide (1 ≤ p.length) && decide (p.length ≤ 3) && p.all isDigitC

/-- Left-to-right matcher for `^(?:[0-9]{1,3}\.){3}[0-9]{1,3}$`: consume the
maximal digit run (it must have length 1–3), then expect either a literal dot
with `n` groups still to match, or, at group count 0, the end of the string. -/
def ipMatchAux : Nat → List Char → Bool
  | 0, s =>
    octetDigits (s.takeWhile isDigitC) && (s.dropWhile isDigitC).isEmpty
  | Nat.succ m, s =>
    octetDigits (s.takeWhile isDigitC) &&
      match s.dropWhile isDigitC with
      | c :: r => c = '.' && ipMatchAux m r
      | [] => false

/-- The ip pattern `^(?:[0-9]{1,3}\.){3}[0-9]{1,3}$`. -/
def ipPattern (s : List Char) : Bool := ipMatchAux 3 s

/-- One label of the domain regex:
`[a-zA-Z0-9]([a-zA-Z0-9-]{0,61}[a-zA-Z0-9])?` — a single alphanumeric, or an
alphanumeric, up to 61 alphanumeric-or-hyphen characters, and a final
alphanumeric. -/
def labelPat : List Char → Bool
  | [] => false
  | [c] => isAlnumC c
  | c :: cs =>
    isAlnumC c && decide (cs.dropLast.length ≤ 61) &&
      cs.dropLast.all isAlnumHyphenC &&
      match cs.getLast? with
      | some d => isAlnumC d
      | none => false

/-- The final segment of the domain regex, `[a-zA-Z]{2,}`. -/
def tldPat (p : List Char) : Bool := decide (2 ≤ p.length) && p.all isAlphaC

/-- The domain pattern
`^[a-zA-Z0-9]([a-zA-Z0-9-]{0,61}[a-zA-Z0-9])?(\.[a-zA-Z0-9]([a-zA-Z0-9-]{0,61}[a-zA-Z0-9])?)*\.[a-zA-Z]{2,}$`:
two or more dot-separated parts, all but the last matching the label
subpattern and the last matching `[a-zA-Z]{2,}`.  (Labels are dot-free, so
the anchored regex matches exactly when the dot-split parts match their
segment subpatterns in this way.) -/
def domainPattern (s : List Char) : Bool :=
  let ps := splitOnDot s
  decide (2 ≤ ps.length) && ps.dropLast.all labelPat && tldPat (ps.getLastD [])

/-- Tail of the url regex after the scheme: `:\/\/[^\s<>"{}|\\^`[\]]+$`. -/
def urlTail : List Char → Bool
  | c1 :: c2 :: c3 :: body =>
    c1 = ':' && c2 = '/' && c3 = '/' && !body.isEmpty && body.all urlChar
  | _ => false

/-- The url pattern `^https?:\/\/[^\s<>"{}|\\^`[\]]+$`: literal `http`, an
optional `s` (taking the `s` is forced exactly when the fifth character is an
`s`, since otherwise `:` must follow), `://`, then one or more characters
outside the excluded class. -/
def urlPattern : List Char → Bool
  | c1 :: c2 :: c3 :: c4 :: rest =>
    c1 = 'h' && c2 = 't' && c3 = 't' && c4 = 'p' &&
      match rest with
      | c5 :: rest2 => if c5 = 's' then urlTail rest2 else urlTail rest
      | [] => false
  | _ => false

/-- The hash pattern
`^[a-fA-F0-9]{32}$|^[a-fA-F0-9]{40}$|^[a-fA-F0-9]{64}$|^[a-fA-F0-9]{128}$`. -/
def hashPattern (s : List Char) : Bool :=
  (decide (s.length = 32) || decide (s.length = 40) ||
    decide (s.length = 64) || decide (s.length = 128)) && s.all isHexC

/-- Property names an object literal inherits from `Object.prototype`.  For
these keys `patterns[type]` is a non-nullish inherited value (a function, or
`Object.prototype` itself for `__proto__`), so the optional chain
`patterns[type]?.test(value)` proceeds, finds no `test` method, and the call
throws a `TypeError`. -/
def objectProtoKeys : List String :=
  ["constructor", "toString", "toLocaleString", "valueOf", "hasOwnProperty",
   "isPrototypeOf", "propertyIsEnumerable", "__defineGetter__",
   "__defineSetter__", "__lookupGetter__", "__lookupSetter__", "__proto__"]

/-- The function `validateIOC(value, type)` (`client.js` lines 198–207):
`patterns[type]?.test(value) || false`.  A recognized type tests its regex;
a key inherited from `Object.prototype` makes the call throw (modelled as
`Except.error`); any other type finds `patterns[type]` undefined and the
expression evaluates to `false`. -/
def validateIOC (value : String) (type : String) : Except String Bool :=
  if type = "ip" then .ok (ipPattern value.data)
  else if type = "domain" then .ok (domainPattern value.data)
  else if type = "url" then .ok (urlPattern value.data)
  else if type = "hash" then .ok (hashPattern value.data)
  else if type ∈ objectProtoKeys then .error "TypeError"
  else .ok false

/-! ### Risk banding (`client.js` lines 130–145) -/

/-- The function `getRiskColor(riskScore)` (`client.js` lines 130–135). -/
def getRiskColor (riskScore : ℚ) : String :=
  if riskScore ≥ 75 then "#dc3545"
  else if riskScore ≥ 50 then "#fd7e14"
  else if riskScore ≥ 25 then "#ffc107"
  else "#28a745"

/-- The function `getRiskLevel(riskScore)` (`client.js` lines 140–145). -/
def getRiskLevel (riskScore : ℚ) : String :=
  if riskScore ≥ 75 then "Critical"
  else if riskScore ≥ 50 then "High"
  else if riskScore ≥ 25 then "Medium"
  else "Low"

instance {ε : Type u} {α : Type v} [DecidableEq ε] [DecidableEq α] :
    DecidableEq (Except ε α) := fun a b =>
  match a, b with
  | .error e, .error f =>
    if h : e = f then .isTrue (by rw [h]) else .isFalse (fun hh => h (by injection hh))
  | .ok x, .ok y =>
    if h : x = y then .isTrue (by rw [h]) else .isFalse (fun hh => h (by injection hh))
  | .error _, .ok _ => .isFalse (fun hh => Except.noConfusion hh)
  | .ok _, .error _ => .isFalse (fun hh => Except.noConfusion hh)

/-! ### Predicates written from the wording of the claims, for comparison with the
patterns embedded from the source -/

/-- Numeric value of a decimal digit string, most significant digit first. -/
def digitsVal (p : List Char) : Nat :=
  p.foldl (fun acc c => acc * 10 + (c.toNat - 48)) 0

/-- A decimal octet as the spec words it: a nonempty digit string whose value
is in the range 0–255. -/
def claimOctet (p : List Char) : Bool :=
  !p.isEmpty && p.all isDigitC && decide (digitsVal p ≤ 255)

/-- The ip rule as the spec words it: four decimal octets each in 0–255,
separated by single dots, with nothing else. -/
def claimIPv4 (s : List Char) : Bool :=
  match splitOnDot s with
  | [a, b, c, d] => claimOctet a && claimOctet b && claimOctet c && claimOctet d
  | _ => false

/-- What the ip pattern actually accepts: four dot-separated groups of one to
three decimal digits (no 0–255 range restriction). -/
def amendedIPv4 (s : List Char) : Bool :=
  match splitOnDot s with
  | [a, b, c, d] =>
    octetDigits a && octetDigits b && octetDigits c && octetDigits d
  | _ => false

/-- A domain label as the spec words it: only alphanumerics and hyphens,
1–63 characters, no leading or trailing hyphen. -/
def claimLabel (p : List Char) : Bool :=
  decide (1 ≤ p.length) && decide (p.length ≤ 63) && p.all isAlnumHyphenC &&
    (match p.head? with
     | some c => !(c = '-')
     | none => false) &&
    (match p.getLast? with
     | some c => !(c = '-')
     | none => false)

/-- The domain rule as the spec words it: a dot-separated sequence of labels,
every label obeying the label rules, the final label at least 2 characters. -/
def claimDomain (s : List Char) : Bool :=
  let ps := splitOnDot s
  decide (1 ≤ ps.length) && ps.all claimLabel &&
    decide (2 ≤ (ps.getLastD []).length)

/-- What the domain pattern actually requires of the final label:
two or more ASCII letters (digits and hyphens excluded, no length cap). -/
def amendedDomain (s : List Char) : Bool :=
  let ps := splitOnDot s
  decide (2 ≤ ps.length) && ps.dropLast.all claimLabel &&
    decide (2 ≤ (ps.getLastD []).length) && (ps.getLastD []).all isAlphaC

/-- A URL character as the spec words it: anything but whitespace,
angle brackets and backtick. -/
def claimUrlChar (c : Char) : Bool :=
  !(jsWhitespace c || c = '<' || c = '>' || c = Char.ofNat 96)

/-- The url rule as the spec words it: `http://` or `https://` followed by
one or more characters, none of them whitespace, `<`, `>` or backtick. -/
def claimURL (s : List Char) : Bool :=
  (List.isPrefixOf "http://".data s && decide (7 < s.length) &&
      (s.drop 7).all claimUrlChar) ||
    (List.isPrefixOf "https://".data s && decide (8 < s.length) &&
      (s.drop 8).all claimUrlChar)

/-! ### Request collapsing in the Enrichment Coordinator (spec §4.3, §5)

The coordinator itself is not among the visible repository files; it is
modelled from the spec, which prescribes promise-memoization keyed by
indicator identity with an atomic per-key check-and-set, concurrent callers
interleaving their atomic steps in an arbitrary order. -/

/-- Modelled from the spec: the shared state of the Enrichment Coordinator — the
map of in-flight promises keyed by indicator identity, a fresh-promise
counter, and the log of provider invocations issued so far. -/
structure CoordState where
  promises : List (String × Nat)
  nextId : Nat
  callLog : List String
deriving DecidableEq

/-- Look up the in-flight promise for an indicator, if any. -/
def lookupPromise : List (String × Nat) → String → Option Nat
  | [], _ => none
  | (k, v) :: rest, ind => if k = ind then some v else lookupPromise rest ind

/-- Modelled from the spec: the atomic check-and-set step of one `enrich` call.
If a promise for the indicator is already in flight the caller joins it and
no provider call is issued; otherwise a fresh promise is registered and one
underlying provider call is issued.  Returns the promise the caller awaits. -/
def enrichCall (st : CoordState) (ind : String) : CoordState × Nat :=
  match lookupPromise st.promises ind with
  | some pid => (st, pid)
  | none =>
    ({ promises := (ind, st.nextId) :: st.promises,
       nextId := st.nextId + 1,
       callLog := ind :: st.callLog }, st.nextId)

/-- Run a sequence of `enrich` call steps, collecting the promise each caller
receives. -/
def runCalls (st : CoordState) : List String → CoordState × List Nat
  | [] => (st, [])
  | ind :: inds =>
    let step := enrichCall st ind
    let rest := runCalls step.1 inds
    (rest.1, step.2 :: rest.2)

/-! ### The Risk Scorer and aggregation (spec §4.4, §4.3)

The Risk Scorer and the aggregation policy are likewise absent from the
visible repository files and are modelled from the spec. -/

/-- Modelled from the spec: the view one provider has of one indicator — a base
reputation score normalized to 0–100 and a confidence in 0–1. -/
structure ProviderResult where
  providerId : String
  repScore : ℚ
  confidence : ℚ
deriving DecidableEq

/-- Modelled from the spec: the provider error taxonomy. -/
inductive ProviderError where
  | rateLimited
  | timeout
  | invalidIndicator
  | unavailable
deriving DecidableEq

/-- Sum of the provider confidences. -/
def totalConfidence (rs : List ProviderResult) : ℚ :=
  (rs.map (fun r => r.confidence)).sum

/-- Modelled from the spec: weighted average of provider base scores with
confidence as the weight; 0 when no provider contributed. -/
def weightedBase (rs : List ProviderResult) : ℚ :=
  if totalConfidence rs = 0 then 0
  else (rs.map (fun r => r.repScore * r.confidence)).sum / totalConfidence rs

/-- Modelled from the spec: the sightings amplifier — a saturating function
of the sighting count with diminishing returns, capped (at 20 here) so a
single high-confidence malicious verdict still dominates a benign floor. -/
def sightingsAmplifier (n : Nat) : ℚ := 20 * ((n : ℚ) / ((n : ℚ) + 1))

/-- Modelled from the spec: recency decay of the amplifier contribution —
full weight within the freshness window (30 days here), decayed outside it;
the provider base score is never decayed. -/
def recencyFactor (ageDays : Nat) : ℚ := if ageDays ≤ 30 then 1 else 1 / 2

/-- Modelled from the spec: the Risk Scorer —
`score(providerResults, sightingCount, age)`, the confidence-weighted base
plus the decayed sightings amplifier, clamped to [0, 100]. -/
def score (rs : List ProviderResult) (sightingCount ageDays : Nat) : ℚ :=
  min 100 (max 0 (weightedBase rs + recencyFactor ageDays * sightingsAmplifier sightingCount))

/-- The providers that answered successfully; failures contribute nothing. -/
def providerSuccesses (rs : List (Except ProviderError ProviderResult)) :
    List ProviderResult :=
  rs.filterMap (fun r =>
    match r with
    | .ok p => some p
    | .error _ => none)

/-- Modelled from the spec: the aggregated view of an indicator — base score,
aggregate source confidence, and the "enrichment unavailable" flag that
distinguishes a result produced with every provider failing from an
enriched, confirmed-benign one. -/
structure Enrichment where
  baseScore : ℚ
  confidence : ℚ
  unavailable : Bool
deriving DecidableEq

/-- Modelled from the spec: the aggregation policy of the Enrichment
Coordinator — a provider result is included only on success; if all fail an
Enrichment is still produced (never an error to the orchestrator) with base
score 0, confidence 0 and the unavailable flag set. -/
def enrich (rs : List (Except ProviderError ProviderResult)) : Enrichment :=
  let ok := providerSuccesses rs
  if ok.isEmpty then { baseScore := 0, confidence := 0, unavailable := true }
  else
    { baseScore := weightedBase ok,
      confidence := totalConfidence ok / ok.length,
      unavailable := false }

end Threatelligence

namespace Threatelligence

/-! ### C1 and C9: risk banding -/

/-- C1: the risk level is a deterministic function of the risk score with
boundaries inclusive on the lower bound of each band: `getRiskLevel` returns
"Critical" exactly when the score is ≥ 75, "High" exactly on [50, 75),
"Medium" exactly on [25, 50), and "Low" exactly below 25 (so 74.999 maps to
High, 75.0 to Critical; 49.999 to Medium, 50.0 to High; 24.999 to Low, 25.0
to Medium). -/
theorem getRiskLevel_bands (x : ℚ) :
    (getRiskLevel x = "Critical" ↔ 75 ≤ x) ∧
    (getRiskLevel x = "High" ↔ 50 ≤ x ∧ x < 75) ∧
    (getRiskLevel x = "Medium" ↔ 25 ≤ x ∧ x < 50) ∧
    (getRiskLevel x = "Low" ↔ x < 25) := by
  unfold getRiskLevel
  split_ifs with h1 h2 h3 <;>
    refine ⟨?_, ?_, ?_, ?_⟩ <;> constructor <;> intro h <;>
    first
      | rfl
      | (exact h1)
      | (constructor <;> linarith)
      | linarith
      | (exfalso; revert h; simp)

/-- C9: `getRiskColor` and `getRiskLevel` partition scores by the same
thresholds: the color is `#dc3545` exactly when the level is Critical,
`#fd7e14` exactly when High, `#ffc107` exactly when Medium, `#28a745`
exactly when Low. -/
theorem getRiskColor_matches_getRiskLevel (x : ℚ) :
    (getRiskColor x = "#dc3545" ↔ getRiskLevel x = "Critical") ∧
    (getRiskColor x = "#fd7e14" ↔ getRiskLevel x = "High") ∧
    (getRiskColor x = "#ffc107" ↔ getRiskLevel x = "Medium") ∧
    (getRiskColor x = "#28a745" ↔ getRiskLevel x = "Low") := by
  unfold getRiskColor getRiskLevel
  split_ifs <;> simp

/-! ### Helper lemmas on characters, `takeWhile` and `splitOnDot` -/

theorem all_takeWhile (p : Char → Bool) (l : List Char) :
    (l.takeWhile p).all p = true := by
  induction l with
  | nil => rfl
  | cons x xs ih =>
    by_cases h : p x = true
    · simp [List.takeWhile_cons_of_pos h, h, ih]
    · simp [List.takeWhile_cons_of_neg h]

theorem isDigitC_ne_dot {c : Char} (h : isDigitC c = true) : ¬ c = '.' := by
  intro hc
  subst hc
  exact absurd h (by decide)

theorem all_digits_no_dot {s : List Char} (h : s.all isDigitC = true) :
    ∀ a ∈ s, ¬ a = '.' := by
  rw [List.all_eq_true] at h
  exact fun a ha => isDigitC_ne_dot (h a ha)

theorem digit_not_alpha {c : Char} (h : isDigitC c = true) : isAlphaC c = false := by
  simp only [isDigitC, Bool.and_eq_true, decide_eq_true_eq] at h
  simp only [isAlphaC, Bool.or_eq_false_iff, Bool.and_eq_false_iff,
    decide_eq_false_iff_not, not_le]
  omega

theorem splitOnDot_ne_nil (s : List Char) : splitOnDot s ≠ [] := by
  induction s with
  | nil => simp [splitOnDot]
  | cons c cs ih =>
    simp only [splitOnDot]
    split
    · simp
    · split <;> simp

theorem splitOnDot_append (xs ys : List Char) (h : ∀ a ∈ xs, ¬ a = '.')
    (p : List Char) (ps : List (List Char)) (hy : splitOnDot ys = p :: ps) :
    splitOnDot (xs ++ ys) = (xs ++ p) :: ps := by
  induction xs with
  | nil => simpa using hy
  | cons x xs ih =>
    have hx : ¬ x = '.' := h x (List.mem_cons_self x xs)
    have hxs := ih fun a ha => h a (List.mem_cons_of_mem x ha)
    rw [List.cons_append]
    simp only [splitOnDot, if_neg hx, hxs, List.cons_append]

theorem splitOnDot_no_dot (s : List Char) (h : ∀ a ∈ s, ¬ a = '.') :
    splitOnDot s = [s] := by
  have := splitOnDot_append s [] h [] [] rfl
  simpa using this

theorem splitOnDot_sep (xs ys : List Char) (h : ∀ a ∈ xs, ¬ a = '.') :
    splitOnDot (xs ++ '.' :: ys) = xs :: splitOnDot ys := by
  have h1 : splitOnDot ('.' :: ys) = [] :: splitOnDot ys := by
    simp [splitOnDot]
  have := splitOnDot_append xs ('.' :: ys) h [] (splitOnDot ys) h1
  simpa using this

/-- The scanner for the ip regex accepts exactly the strings whose
dot-separated parts are `n + 1` groups of one to three digits. -/
theorem ipMatchAux_iff (n : Nat) : ∀ s : List Char,
    ipMatchAux n s = true ↔
      (splitOnDot s).length = n + 1 ∧ (splitOnDot s).all octetDigits = true := by
  induction n with
  | zero =>
    intro s
    rcases hr : s.dropWhile isDigitC with _ | ⟨c, r⟩
    · have hs : s.takeWhile isDigitC = s := by
        have h0 := List.takeWhile_append_dropWhile (p := isDigitC) (l := s)
        rwa [hr, List.append_nil] at h0
      have hall : s.all isDigitC = true := by
        rw [← hs]; exact all_takeWhile _ _
      have hsplit : splitOnDot s = [s] :=
        splitOnDot_no_dot s (all_digits_no_dot hall)
      rw [ipMatchAux, hr, hs, hsplit]
      simp
    · have hc : isDigitC c = false := by
        have h2 := List.head?_dropWhile_not isDigitC s
        rw [hr] at h2
        simpa using h2
      have hs2 : s = s.takeWhile isDigitC ++ c :: r := by
        conv_lhs => rw [← List.takeWhile_append_dropWhile (p := isDigitC) (l := s)]
        rw [hr]
      have hall_ds : (s.takeWhile isDigitC).all isDigitC = true := all_takeWhile _ _
      have hmatch : ipMatchAux 0 s = false := by
        rw [ipMatchAux, hr]
        simp
      by_cases hcd : c = '.'
      · subst hcd
        have hsplit : splitOnDot s = s.takeWhile isDigitC :: splitOnDot r := by
          conv_lhs => rw [hs2]
          exact splitOnDot_sep _ r (all_digits_no_dot hall_ds)
        rw [hmatch, hsplit]
        constructor
        · intro hme; simp at hme
        · rintro ⟨hlen, _⟩
          simp only [List.length_cons, Nat.add_right_cancel_iff] at hlen
          exact absurd (List.length_eq_zero.mp hlen) (splitOnDot_ne_nil r)
      · have hsplit : ∃ p ps,
            splitOnDot s = (s.takeWhile isDigitC ++ c :: p) :: ps := by
          rcases hq : splitOnDot r with _ | ⟨p, ps⟩
          · exact absurd hq (splitOnDot_ne_nil r)
          · refine ⟨p, ps, ?_⟩
            have hcr : splitOnDot (c :: r) = (c :: p) :: ps := by
              simp only [splitOnDot, if_neg hcd, hq]
            conv_lhs => rw [hs2]
            exact splitOnDot_append _ (c :: r) (all_digits_no_dot hall_ds) _ _ hcr
        obtain ⟨p, ps, hsplit⟩ := hsplit
        rw [hmatch, hsplit]
        constructor
        · intro hme; simp at hme
        · rintro ⟨hlen, hball⟩
          simp only [List.all_cons, Bool.and_eq_true] at hball
          have h3 := hball.1
          simp only [octetDigits, Bool.and_eq_true] at h3
          have h4 := h3.2
          rw [List.all_append] at h4
          simp only [List.all_cons, Bool.and_eq_true] at h4
          rw [h4.2.1] at hc
          simp at hc
  | succ m ih =>
    intro s
    rcases hr : s.dropWhile isDigitC with _ | ⟨c, r⟩
    · have hs : s.takeWhile isDigitC = s := by
        have h0 := List.takeWhile_append_dropWhile (p := isDigitC) (l := s)
        rwa [hr, List.append_nil] at h0
      have hall : s.all isDigitC = true := by
        rw [← hs]; exact all_takeWhile _ _
      have hsplit : splitOnDot s = [s] :=
        splitOnDot_no_dot s (all_digits_no_dot hall)
      rw [ipMatchAux, hr, hsplit]
      constructor
      · intro hme; simp at hme
      · rintro ⟨hlen, _⟩
        simp at hlen
    · have hc : isDigitC c = false := by
        have h2 := List.head?_dropWhile_not isDigitC s
        rw [hr] at h2
        simpa using h2
      have hs2 : s = s.takeWhile isDigitC ++ c :: r := by
        conv_lhs => rw [← List.takeWhile_append_dropWhile (p := isDigitC) (l := s)]
        rw [hr]
      have hall_ds : (s.takeWhile isDigitC).all isDigitC = true := all_takeWhile _ _
      by_cases hcd : c = '.'
      · subst hcd
        have hsplit : splitOnDot s = s.takeWhile isDigitC :: splitOnDot r := by
          conv_lhs => rw [hs2]
          exact splitOnDot_sep _ r (all_digits_no_dot hall_ds)
        rw [ipMatchAux, hr, hsplit]
        simp only [List.length_cons, List.all_cons, Bool.and_eq_true,
          decide_eq_true_eq, Nat.add_right_cancel_iff, ih r]
        constructor
        · rintro ⟨hds, _, hlen, hall2⟩
          exact ⟨hlen, hds, hall2⟩
        · rintro ⟨hlen, hds, hall2⟩
          exact ⟨hds, trivial, hlen, hall2⟩
      · have hsplit : ∃ p ps,
            splitOnDot s = (s.takeWhile isDigitC ++ c :: p) :: ps := by
          rcases hq : splitOnDot r with _ | ⟨p, ps⟩
          · exact absurd hq (splitOnDot_ne_nil r)
          · refine ⟨p, ps, ?_⟩
            have hcr : splitOnDot (c :: r) = (c :: p) :: ps := by
              simp only [splitOnDot, if_neg hcd, hq]
            conv_lhs => rw [hs2]
            exact splitOnDot_append _ (c :: r) (all_digits_no_dot hall_ds) _ _ hcr
        obtain ⟨p, ps, hsplit⟩ := hsplit
        rw [ipMatchAux, hr, hsplit]
        constructor
        · intro hme
          simp [hcd] at hme
        · rintro ⟨hlen, hball⟩
          simp only [List.all_cons, Bool.and_eq_true] at hball
          have h3 := hball.1
          simp only [octetDigits, Bool.and_eq_true] at h3
          have h4 := h3.2
          rw [List.all_append] at h4
          simp only [List.all_cons, Bool.and_eq_true] at h4
          rw [h4.2.1] at hc
          simp at hc

/-! ### C2, C3, C4: what the `validateIOC` patterns accept versus the spec -/

/-- C2 counterexample: the ip pattern does not restrict octets to 0–255.
At `999.1.1.1` the code accepts while the spec wording rejects, so the
claimed equivalence fails. -/
theorem validateIOC_ip_not_claim_iff :
    ¬ (validateIOC "999.1.1.1" "ip" = Except.ok true ↔
        claimIPv4 "999.1.1.1".data = true) := by decide

/-- C3 counterexample: the domain pattern requires a letters-only TLD.
At `example.co2` the claim label rules accept (labels alphanumeric,
TLD of length ≥ 2) while the code rejects, so the claimed equivalence
fails. -/
theorem validateIOC_domain_not_claim_iff :
    ¬ (validateIOC "example.co2" "domain" = Except.ok true ↔
        claimDomain "example.co2".data = true) := by decide

/-- C4 counterexample: the excluded class of the url pattern is larger than
whitespace, angle brackets and backtick — it also excludes
`"`, `{`, `}`, `|`, `\`, `^`, `[`, `]`.  At `http://a|b` the spec wording
accepts while the code rejects, so the claimed equivalence fails. -/
theorem validateIOC_url_not_claim_iff :
    ¬ (validateIOC "http://a|b" "url" = Except.ok true ↔
        claimURL "http://a|b".data = true) := by decide

theorem ipPattern_iff_amended (s : List Char) :
    ipPattern s = true ↔ amendedIPv4 s = true := by
  unfold ipPattern
  rw [ipMatchAux_iff]
  rcases hsp : splitOnDot s with _ | ⟨a, _ | ⟨b, _ | ⟨c, _ | ⟨d, _ | ⟨e, t⟩⟩⟩⟩⟩ <;>
    simp [amendedIPv4, hsp, and_assoc]

/-- C2 amended: `validateIOC(v, 'ip')` returns true exactly when `v` is four
groups of one to three decimal digits separated by single dots — with no
0–255 range restriction on the octet values. -/
theorem validateIOC_ip_characterization (v : String) :
    validateIOC v "ip" = Except.ok true ↔ amendedIPv4 v.data = true := by
  have h := ipPattern_iff_amended v.data
  simpa [validateIOC] using h

theorem alnum_iff_alnumHyphen_ne (c : Char) :
    isAlnumC c = true ↔ (isAlnumHyphenC c = true ∧ ¬ c = '-') := by
  by_cases h : c = '-'
  · subst h; decide
  · simp [isAlnumHyphenC, h]

theorem labelPat_singleton (c : Char) : labelPat [c] = isAlnumC c := rfl

theorem labelPat_cons_cons (c e : Char) (es : List Char) :
    labelPat (c :: e :: es) =
      (isAlnumC c && decide ((e :: es).dropLast.length ≤ 61) &&
        (e :: es).dropLast.all isAlnumHyphenC &&
        match (e :: es).getLast? with
        | some d => isAlnumC d
        | none => false) := rfl

theorem labelPat_concat (c d : Char) (mid : List Char) :
    labelPat (c :: (mid ++ [d])) =
      (isAlnumC c && decide (mid.length ≤ 61) &&
        mid.all isAlnumHyphenC && isAlnumC d) := by
  rcases mid with _ | ⟨m, ms⟩
  · simp only [List.nil_append, labelPat_cons_cons]
    simp
  · simp only [List.cons_append, labelPat_cons_cons]
    have hconc : m :: (ms ++ [d]) = (m :: ms) ++ [d] := rfl
    rw [hconc, List.dropLast_concat, List.getLast?_concat]

theorem labelPat_eq_claimLabel (p : List Char) : labelPat p = claimLabel p := by
  rcases p with _ | ⟨c, cs⟩
  · rfl
  rcases List.eq_nil_or_concat cs with hnil | ⟨mid, d, hcs⟩
  · subst hnil
    rw [Bool.eq_iff_iff]
    simp [labelPat_singleton, claimLabel, alnum_iff_alnumHyphen_ne]
  · rw [List.concat_eq_append] at hcs
    subst hcs
    rw [Bool.eq_iff_iff, labelPat_concat]
    have hlast : (c :: (mid ++ [d])).getLast? = some d := by
      rw [show c :: (mid ++ [d]) = (c :: mid) ++ [d] from rfl, List.getLast?_concat]
    simp [claimLabel, hlast, List.all_append, alnum_iff_alnumHyphen_ne, and_assoc]
    constructor
    · rintro ⟨hc1, hc2, hlen, hmid, hd1, hd2⟩
      refine ⟨by omega, hc1, hmid, hd1, hc2, hd2⟩
    · rintro ⟨hlen, hc1, hmid, hd1, hc2, hd2⟩
      refine ⟨hc1, hc2, by omega, hmid, hd1, hd2⟩

/-- C3 amended: `validateIOC(v, 'domain')` returns true exactly when `v` is
two or more dot-separated labels, every label but the last consisting of
alphanumerics and hyphens, 1–63 characters long, with no leading or trailing
hyphen, and the final label consisting of at least two ASCII letters
(letters only — digits and hyphens excluded, with no upper length bound). -/
theorem validateIOC_domain_characterization (v : String) :
    validateIOC v "domain" = Except.ok true ↔ amendedDomain v.data = true := by
  have hfun : labelPat = claimLabel := funext labelPat_eq_claimLabel
  simp [validateIOC, domainPattern, amendedDomain, tldPat, hfun, and_assoc]

/-! ### C10: `validateIOC` on unrecognized type strings -/

/-- C10 counterexample: for a type name inherited from `Object.prototype`
the lookup `patterns[type]` is a non-regex value, the optional chain
proceeds, and calling the missing `test` method throws a TypeError instead
of returning false. -/
theorem validateIOC_toString_throws :
    validateIOC "x" "toString" = Except.error "TypeError" ∧
      ¬ validateIOC "x" "toString" = Except.ok false := by decide

/-- C10 amended: for every type string that is neither one of the four
recognized types nor a property name inherited from `Object.prototype`,
`validateIOC` returns false rather than throwing. -/
theorem validateIOC_unrecognized_type_false (value type : String)
    (h1 : ¬ type = "ip") (h2 : ¬ type = "domain") (h3 : ¬ type = "url")
    (h4 : ¬ type = "hash") (h5 : ¬ type ∈ objectProtoKeys) :
    validateIOC value type = Except.ok false := by
  simp [validateIOC, h1, h2, h3, h4, h5]

/-- Witness for the amended C10 at the concrete unrecognized type `cidr`. -/
theorem validateIOC_unrecognized_type_false_witness :
    validateIOC "8.8.8.8" "cidr" = Except.ok false :=
  validateIOC_unrecognized_type_false "8.8.8.8" "cidr" (by decide) (by decide)
    (by decide) (by decide) (by decide)

/-! ### C4 amended: characterization of the url pattern -/

theorem urlTail_cons3 (c1 c2 c3 : Char) (body : List Char) :
    urlTail (c1 :: c2 :: c3 :: body) =
      (c1 = ':' && c2 = '/' && c3 = '/' && !body.isEmpty && body.all urlChar) := rfl

theorem urlPattern_cons5 (c1 c2 c3 c4 c5 : Char) (rest2 : List Char) :
    urlPattern (c1 :: c2 :: c3 :: c4 :: c5 :: rest2) =
      (c1 = 'h' && c2 = 't' && c3 = 't' && c4 = 'p' &&
        if c5 = 's' then urlTail rest2 else urlTail (c5 :: rest2)) := rfl

theorem urlPattern_cons4 (c1 c2 c3 c4 : Char) :
    urlPattern [c1, c2, c3, c4] =
      (c1 = 'h' && c2 = 't' && c3 = 't' && c4 = 'p' && false) := rfl

theorem urlTail_iff (s : List Char) :
    urlTail s = true ↔
      ∃ r, s = ':' :: '/' :: '/' :: r ∧ ¬ r = [] ∧ r.all urlChar = true := by
  rcases s with _ | ⟨c1, _ | ⟨c2, _ | ⟨c3, body⟩⟩⟩
  · simp [urlTail]
  · simp [urlTail]
  · simp [urlTail]
  · constructor
    · intro h
      rw [urlTail_cons3] at h
      simp only [Bool.and_eq_true, decide_eq_true_eq, Bool.not_eq_true'] at h
      obtain ⟨⟨⟨⟨h1, h2⟩, h3⟩, hne⟩, hall⟩ := h
      subst h1; subst h2; subst h3
      refine ⟨body, rfl, ?_, hall⟩
      intro hb
      subst hb
      simp at hne
    · rintro ⟨r, heq, hne, hall⟩
      injection heq with h1 heq
      injection heq with h2 heq
      injection heq with h3 heq
      subst h1; subst h2; subst h3; subst heq
      rw [urlTail_cons3]
      simp only [Bool.and_eq_true, decide_eq_true_eq, Bool.not_eq_true']
      refine ⟨⟨⟨⟨by trivial, by trivial⟩, by trivial⟩, ?_⟩, hall⟩
      cases body with
      | nil => exact absurd rfl hne
      | cons x xs => rfl

theorem urlPattern_iff_amended (s : List Char) :
    urlPattern s = true ↔
      ∃ r, (s = 'h' :: 't' :: 't' :: 'p' :: ':' :: '/' :: '/' :: r ∨
            s = 'h' :: 't' :: 't' :: 'p' :: 's' :: ':' :: '/' :: '/' :: r) ∧
        ¬ r = [] ∧ r.all urlChar = true := by
  rcases s with _ | ⟨c1, _ | ⟨c2, _ | ⟨c3, _ | ⟨c4, rest⟩⟩⟩⟩
  · simp [urlPattern]
  · simp [urlPattern]
  · simp [urlPattern]
  · simp [urlPattern]
  rcases rest with _ | ⟨c5, rest2⟩
  · rw [urlPattern_cons4]
    simp
  constructor
  · intro h
    rw [urlPattern_cons5] at h
    simp only [Bool.and_eq_true, decide_eq_true_eq] at h
    obtain ⟨⟨⟨⟨h1, h2⟩, h3⟩, h4⟩, htail⟩ := h
    subst h1; subst h2; subst h3; subst h4
    by_cases h5 : c5 = 's'
    · subst h5
      rw [if_pos rfl, urlTail_iff] at htail
      obtain ⟨r, hr, hne, hall⟩ := htail
      subst hr
      exact ⟨r, Or.inr rfl, hne, hall⟩
    · rw [if_neg h5, urlTail_iff] at htail
      obtain ⟨r, hr, hne, hall⟩ := htail
      injection hr with hc5 hr
      subst hc5; subst hr
      exact ⟨r, Or.inl rfl, hne, hall⟩
  · rintro ⟨r, hor, hne, hall⟩
    rcases hor with heq | heq
    · injection heq with h1 heq
      injection heq with h2 heq
      injection heq with h3 heq
      injection heq with h4 heq
      injection heq with h5 heq
      subst h1; subst h2; subst h3; subst h4; subst h5; subst heq
      rw [urlPattern_cons5, if_neg (by decide : ¬(':' = 's'))]
      simp only [Bool.and_eq_true, decide_eq_true_eq]
      refine ⟨⟨⟨⟨by trivial, by trivial⟩, by trivial⟩, by trivial⟩, ?_⟩
      exact (urlTail_iff _).mpr ⟨r, rfl, hne, hall⟩
    · injection heq with h1 heq
      injection heq with h2 heq
      injection heq with h3 heq
      injection heq with h4 heq
      injection heq with h5 heq
      subst h1; subst h2; subst h3; subst h4; subst h5; subst heq
      rw [urlPattern_cons5, if_pos rfl]
      simp only [Bool.and_eq_true, decide_eq_true_eq]
      refine ⟨⟨⟨⟨by trivial, by trivial⟩, by trivial⟩, by trivial⟩, ?_⟩
      exact (urlTail_iff _).mpr ⟨r, rfl, hne, hall⟩

/-- C4 amended: `validateIOC(v, 'url')` returns true exactly when `v` is
`http://` or `https://` followed by one or more characters, none of which is
whitespace, `<`, `>`, `"`, `{`, `}`, `|`, `\`, `^`, backtick, `[` or `]`. -/
theorem validateIOC_url_characterization (v : String) :
    validateIOC v "url" = Except.ok true ↔
      (∃ r, (v.data = 'h' :: 't' :: 't' :: 'p' :: ':' :: '/' :: '/' :: r ∨
             v.data = 'h' :: 't' :: 't' :: 'p' :: 's' :: ':' :: '/' :: '/' :: r) ∧
        ¬ r = [] ∧ r.all urlChar = true) := by
  have h := urlPattern_iff_amended v.data
  simpa [validateIOC] using h

/-! ### C5: a dotted quad is never classified as a domain -/

/-- C5: for every IPv4 dotted quad — four dot-separated nonempty decimal
digit strings with values at most 255 — `validateIOC(·, 'domain')` returns
false: the final segment of the domain pattern admits only letters, and the last
octet starts with a digit. -/
theorem dotted_quad_not_domain (a b c d : List Char)
    (ha : ¬ a = [] ∧ a.all isDigitC = true ∧ digitsVal a ≤ 255)
    (hb : ¬ b = [] ∧ b.all isDigitC = true ∧ digitsVal b ≤ 255)
    (hc : ¬ c = [] ∧ c.all isDigitC = true ∧ digitsVal c ≤ 255)
    (hd : ¬ d = [] ∧ d.all isDigitC = true ∧ digitsVal d ≤ 255) :
    validateIOC (String.mk (a ++ '.' :: (b ++ '.' :: (c ++ '.' :: d)))) "domain"
      = Except.ok false := by
  have hsplit : splitOnDot (a ++ '.' :: (b ++ '.' :: (c ++ '.' :: d)))
      = [a, b, c, d] := by
    rw [splitOnDot_sep a _ (all_digits_no_dot ha.2.1),
      splitOnDot_sep b _ (all_digits_no_dot hb.2.1),
      splitOnDot_sep c _ (all_digits_no_dot hc.2.1),
      splitOnDot_no_dot d (all_digits_no_dot hd.2.1)]
  have htld : tldPat d = false := by
    rcases d with _ | ⟨e, d2⟩
    · exact absurd rfl hd.1
    · have he : isDigitC e = true := by
        have h0 := hd.2.1
        simp only [List.all_cons, Bool.and_eq_true] at h0
        exact h0.1
      simp [tldPat, digit_not_alpha he]
  have hdom : domainPattern (a ++ '.' :: (b ++ '.' :: (c ++ '.' :: d)))
      = false := by
    simp only [domainPattern, hsplit]
    simp [htld]
  simp [validateIOC, hdom]

/-- Witness for C5 at the concrete dotted quad `8.8.8.8`. -/
theorem dotted_quad_not_domain_witness :
    validateIOC
        (String.mk (['8'] ++ '.' :: (['8'] ++ '.' :: (['8'] ++ '.' :: ['8']))))
        "domain" = Except.ok false :=
  dotted_quad_not_domain ['8'] ['8'] ['8'] ['8']
    (by decide) (by decide) (by decide) (by decide)

/-! ### C6: request collapsing in the Enrichment Coordinator -/

theorem runCalls_joined (st : CoordState) (ind : String) (pid : Nat)
    (h : lookupPromise st.promises ind = some pid) (n : Nat) :
    runCalls st (List.replicate n ind) = (st, List.replicate n pid) := by
  induction n with
  | zero => rfl
  | succ m ih =>
    simp [List.replicate_succ, runCalls, enrichCall, h, ih]

/-- C6: request collapsing — when `n ≥ 1` enrich calls for the same
indicator run (their atomic check-and-set steps interleaved in program
order) against a state with no promise in flight for it, exactly one
underlying provider call is issued, and every one of the `n` callers is
handed the same single in-flight promise. -/
theorem enrich_request_collapsing (st : CoordState) (ind : String) (n : Nat)
    (hn : 1 ≤ n) (hfree : lookupPromise st.promises ind = none) :
    (runCalls st (List.replicate n ind)).1.callLog.count ind
        = st.callLog.count ind + 1 ∧
      (runCalls st (List.replicate n ind)).2 = List.replicate n st.nextId := by
  rcases n with _ | m
  · exact absurd hn (by norm_num)
  · have hjoin : lookupPromise ((ind, st.nextId) :: st.promises) ind
        = some st.nextId := by
      simp [lookupPromise]
    have hrest := runCalls_joined
      ⟨(ind, st.nextId) :: st.promises, st.nextId + 1, ind :: st.callLog⟩
      ind st.nextId hjoin m
    simp [List.replicate_succ, runCalls, enrichCall, hfree, hrest,
      List.count_cons_self]

/-- Witness for C6: three concurrent calls for the same indicator against a
fresh coordinator issue exactly one provider call and share one promise. -/
theorem enrich_request_collapsing_witness :
    (runCalls ⟨[], 0, []⟩ (List.replicate 3 "8.8.8.8")).1.callLog.count "8.8.8.8"
        = (⟨[], 0, []⟩ : CoordState).callLog.count "8.8.8.8" + 1 ∧
      (runCalls ⟨[], 0, []⟩ (List.replicate 3 "8.8.8.8")).2
        = List.replicate 3 (⟨[], 0, []⟩ : CoordState).nextId :=
  enrich_request_collapsing ⟨[], 0, []⟩ "8.8.8.8" 3 (by decide) rfl

/-! ### C7: the risk score is monotone in the sighting count -/

/-- C7: with identical provider results and age inputs, the risk score is
monotone in the sighting count (the amplifier saturates but never
decreases). -/
theorem score_monotone_in_sightings (rs : List ProviderResult)
    (s1 s2 ageDays : Nat) (h : s1 < s2) :
    score rs s1 ageDays ≤ score rs s2 ageDays := by
  have hle : (s1 : ℚ) ≤ (s2 : ℚ) := by exact_mod_cast Nat.le_of_lt h
  have hamp : sightingsAmplifier s1 ≤ sightingsAmplifier s2 := by
    unfold sightingsAmplifier
    have h1 : (0 : ℚ) < (s1 : ℚ) + 1 := by positivity
    have h2 : (0 : ℚ) < (s2 : ℚ) + 1 := by positivity
    have hdiv : (s1 : ℚ) / ((s1 : ℚ) + 1) ≤ (s2 : ℚ) / ((s2 : ℚ) + 1) := by
      rw [div_le_div_iff₀ h1 h2]
      nlinarith
    nlinarith
  have hrf : 0 ≤ recencyFactor ageDays := by
    unfold recencyFactor
    split <;> norm_num
  have hsum : weightedBase rs + recencyFactor ageDays * sightingsAmplifier s1
      ≤ weightedBase rs + recencyFactor ageDays * sightingsAmplifier s2 := by
    have := mul_le_mul_of_nonneg_left hamp hrf
    linarith
  exact min_le_min (le_refl _) (max_le_max (le_refl _) hsum)

/-- Witness for C7 at no provider results and sighting counts 1 < 2. -/
theorem score_monotone_in_sightings_witness :
    score [] 1 0 ≤ score [] 2 0 :=
  score_monotone_in_sightings [] 1 2 0 (by decide)

/-! ### C8: all providers failing still yields an Enrichment -/

theorem providerSuccesses_all_failed
    (rs : List (Except ProviderError ProviderResult))
    (h : ∀ r ∈ rs, r.isOk = false) : providerSuccesses rs = [] := by
  induction rs with
  | nil => rfl
  | cons r rest ih =>
    rcases r with e | p
    · simp only [providerSuccesses, List.filterMap_cons]
      exact ih fun x hx => h x (List.mem_cons_of_mem _ hx)
    · have h0 := h _ (List.mem_cons_self _ _)
      simp [Except.isOk, Except.toBool] at h0

/-- C8: when every configured provider fails, `enrich` still returns an
Enrichment — base score 0, confidence 0, unavailable flag set — and the flag
distinguishes it from any enrichment with at least one successful provider
result, whose flag is clear. -/
theorem enrich_unavailable_when_all_fail
    (rs rs2 : List (Except ProviderError ProviderResult))
    (h : ∀ r ∈ rs, r.isOk = false) (h2 : ¬ providerSuccesses rs2 = []) :
    enrich rs = { baseScore := 0, confidence := 0, unavailable := true } ∧
      (enrich rs2).unavailable = false := by
  constructor
  · simp [enrich, providerSuccesses_all_failed rs h]
  · simp [enrich, h2]

/-- Witness for C8: two failing providers yield the unavailable Enrichment;
one successful provider clears the flag. -/
theorem enrich_unavailable_when_all_fail_witness :
    enrich [Except.error ProviderError.unavailable,
        Except.error ProviderError.timeout]
      = { baseScore := 0, confidence := 0, unavailable := true } ∧
      (enrich [Except.ok ⟨"vt", 80, 1⟩]).unavailable = false :=
  enrich_unavailable_when_all_fail _ _ (by decide) (by decide)

end Threatelligence
